import Mathlib

/-!
Verification of the pgen parser engine (parso/pgen2/parse.py).

The engine is a table-driven pushdown automaton: a grammar provides a family
of DFAs (one list of states per nonterminal), tokens are resolved to integer
labels, and a stack of frames (`StackNode`) drives a shift/reduce loop.

Modelling conventions:
* The Python DFA objects form a cyclic object graph (a `Plan` holds references
  to successor and pushed DFA states), so DFA states are represented by their
  index into `Grammar.dfas`, and `Grammar.dfa` dereferences an index.
* The Python stack has its top at the end (`stack[-1]`, `append`, `pop`).
  Here the stack list is kept top-first (head = top of stack); pushing conses.
* Tree nodes are opaque to the engine: it is parametric in a node type `α`
  and two caller-supplied builders (`convert_node`, `convert_leaf`).
* `error_recovery` is a caller-supplied hook that receives the live parser
  state (stack and root) together with the offending token's fields and may
  mutate the state arbitrarily, including by re-entering `add_token`; it is
  modelled as an abstract function from that data to a new parser state.
* The two fatal conditions (`InternalParseError "too much input"` /
  `"incomplete input"`) are modelled as `Except` errors carrying the token
  type, value and start position they are raised with.  `parse` on an empty
  token stream with a non-empty residual stack would, in Python, hit the
  unbound loop variables `type_`, `value`, `start_pos` and raise
  `UnboundLocalError`; that path is modelled by `PErr.unboundLocal`.
-/

namespace Parso

/-- A lexical token: `(type, value, start_pos, prefix)` as consumed by
`PgenParser.parse`; the last field (leading trivia) is called `prfx` here. -/
structure Token where
  type : Nat
  value : String
  start_pos : Nat × Nat
  prfx : String
deriving DecidableEq, Repr

/-- The token-type number of generic identifiers (`tokenize.NAME`), used by
`token_to_ilabel` to decide whether to consult the keyword table. -/
def NAME : Nat := 1

/-- A transition's effect (pgen `DFAPlan`): the successor state of the same
nonterminal and the start states of the nested nonterminals this transition
enters, outermost first.  States are DFA indices into `Grammar.dfas`. -/
structure Plan where
  next_dfa : Nat
  dfa_pushes : List Nat
deriving DecidableEq, Repr

/-- One DFA state: its owning nonterminal (`from_rule`), its finality flag and
its transition table from label to `Plan` (an association list modelling the
Python dict `ilabel_to_plan`). -/
structure DFA where
  from_rule : String
  is_final : Bool
  ilabel_to_plan : List (Nat × Plan)
deriving DecidableEq, Repr

/-- The grammar tables, immutable during parsing: reserved words to labels,
token types to labels, the DFA state pool, and the two maps used by the
constructor to locate the start nonterminal's first DFA state. -/
structure Grammar where
  keywords : List (String × Nat)
  tokens : List (Nat × Nat)
  dfas : List DFA
  number2nonterminal : List (Nat × String)
  nonterminal_to_dfas : List (String × List Nat)
deriving DecidableEq, Repr

/-- Dereference a DFA index.  On a well-formed grammar every index stored in a
`Plan` or frame is in range; the default is never reached there. -/
def Grammar.dfa (g : Grammar) (i : Nat) : DFA :=
  g.dfas.getD i ⟨"", false, []⟩

/-- Transition lookup `dfa.ilabel_to_plan[ilabel]`.  The label may be absent
(`token_to_ilabel` returned `None`, modelled as `none`): the Python dict lookup
then raises `KeyError`, i.e. there is no plan. -/
def DFA.planFor (d : DFA) : Option Nat → Option Plan
  | none => none
  | some l => d.ilabel_to_plan.lookup l

/-- Label resolution (`token_to_ilabel`): for a `NAME` token first try the
reserved-word table on the literal value; otherwise (and on a keyword miss)
look the token type up in the token table, yielding `none` if unregistered. -/
def token_to_ilabel (g : Grammar) (type_ : Nat) (value : String) : Option Nat :=
  if type_ = NAME then
    match g.keywords.lookup value with
    | some l => some l
    | none => g.tokens.lookup type_
  else
    g.tokens.lookup type_

/-- A pushdown-stack frame (`StackNode`): the current DFA state of an
in-progress nonterminal match (rebound on every transition) and its
accumulated children, in order. -/
structure StackNode (α : Type) where
  dfa : Nat
  nodes : List α
deriving DecidableEq, Repr

/-- The mutable parser state: the frame stack (head = top) and the root node,
assigned exactly once when the last frame is popped. -/
structure PState (α : Type) where
  stack : List (StackNode α)
  rootnode : Option α
deriving DecidableEq, Repr

/-- The two caller-supplied node builders: `convert_node grammar nonterminal
children` for internal nodes and `convert_leaf grammar type value prfx
start_pos` for leaves (argument order as in the source). -/
structure Callbacks (α : Type) where
  convert_node : Grammar → String → List α → α
  convert_leaf : Grammar → Nat → String → String → (Nat × Nat) → α

/-- The caller-supplied error-recovery hook.  In the source it receives the
grammar, the live (mutable) stack, the token fields and the bound `add_token`
method; it may mutate the parser state arbitrarily, including by re-entering
`add_token`.  It is modelled as an arbitrary function from the grammar, the
live parser state and the token fields to the successor parser state. -/
def RecHook (α : Type) : Type :=
  Grammar → PState α → Nat → String → (Nat × Nat) → String → PState α

/-- The fatal conditions of the engine, each carrying the offending token's
type, value and start position (`InternalParseError`); `unboundLocal` models
the `UnboundLocalError` that `parse` raises when the token stream was empty
and the incomplete-input `raise` statement references the never-assigned loop
variables. -/
inductive PErr where
  | tooMuchInput (type : Nat) (value : String) (start_pos : Nat × Nat)
  | incompleteInput (type : Nat) (value : String) (start_pos : Nat × Nat)
  | unboundLocal
deriving DecidableEq, Repr

/-- Reduction (`PgenParser._pop`): remove the top frame; a single accumulated
child is promoted as-is, otherwise `convert_node` builds an internal node from
the frame's nonterminal and children; the result is appended to the parent
frame's children, or becomes the root when the stack empties. -/
def pgenPop {α : Type} (g : Grammar) (cb : Callbacks α) (st : PState α) : PState α :=
  match st.stack with
  | [] => st
  | tos :: rest =>
    let new_node : α :=
      match tos.nodes with
      | [n] => n
      | ns => cb.convert_node g (g.dfa tos.dfa).from_rule ns
    match rest with
    | [] => ⟨[], some new_node⟩
    | p :: rs => ⟨{ p with nodes := p.nodes ++ [new_node] } :: rs, st.rootnode⟩

/-- Append a freshly built leaf to the top frame's children
(`stack[-1].nodes.append(leaf)`); the stack is never empty at this point. -/
def appendLeaf {α : Type} (leaf : α) : List (StackNode α) → List (StackNode α)
  | [] => []
  | tos :: rest => { tos with nodes := tos.nodes ++ [leaf] } :: rest

/-- The `while True` lookup loop of `PgenParser.add_token`, after label
resolution: try the top frame's transition table; on a hit rebind the top
frame's DFA, push one fresh frame per planned nested start state, build the
leaf and append it to the new top frame, returning the Python return value
(always `None`, modelled `none`) and the new state; on a miss pop a final top
frame and retry, delegate to the recovery hook at a non-final dead end, and
raise "too much input" when the stack has been drained empty. -/
def addTokenLoop {α : Type} (g : Grammar) (cb : Callbacks α) (er : RecHook α)
    (ilabel : Option Nat) (type_ : Nat) (value : String) (start_pos : Nat × Nat)
    (prfx : String) (st : PState α) : Except PErr (Option Bool × PState α) :=
  match hstk : st.stack with
  | [] => .error (.tooMuchInput type_ value start_pos)
  | tos :: rest =>
    match (g.dfa tos.dfa).planFor ilabel with
    | some plan =>
      let stack1 : List (StackNode α) := { tos with dfa := plan.next_dfa } :: rest
      let stack2 := plan.dfa_pushes.foldl (fun s push => StackNode.mk push [] :: s) stack1
      let leaf := cb.convert_leaf g type_ value prfx start_pos
      .ok (none, ⟨appendLeaf leaf stack2, st.rootnode⟩)
    | none =>
      if (g.dfa tos.dfa).is_final then
        addTokenLoop g cb er ilabel type_ value start_pos prfx (pgenPop g cb st)
      else
        .ok (none, er g st type_ value start_pos prfx)
termination_by st.stack.length
decreasing_by
  simp only [pgenPop, hstk]
  cases rest <;> simp

/-- `PgenParser.add_token`: resolve the token to a label and run the lookup
loop.  The documented return value ("True if this is the end of the program")
is modelled as `Option Bool`; every non-raising path of the source returns
`None`, i.e. `none`. -/
def addToken {α : Type} (g : Grammar) (cb : Callbacks α) (er : RecHook α)
    (type_ : Nat) (value : String) (start_pos : Nat × Nat) (prfx : String)
    (st : PState α) : Except PErr (Option Bool × PState α) :=
  addTokenLoop g cb er (token_to_ilabel g type_ value) type_ value start_pos prfx st

/-- The token loop of `PgenParser.parse`: feed every token to `add_token` in
order, threading the state and remembering the last token seen (the loop
variables `type_`, `value`, `start_pos` after the `for`). -/
def feedTokens {α : Type} (g : Grammar) (cb : Callbacks α) (er : RecHook α) :
    List Token → PState α → Option Token → Except PErr (PState α × Option Token)
  | [], st, last => .ok (st, last)
  | t :: ts, st, _last =>
    match addToken g cb er t.type t.value t.start_pos t.prfx st with
    | .error e => .error e
    | .ok (_, st') => feedTokens g cb er ts st' (some t)

/-- The end-of-stream drain of `PgenParser.parse`:
`while self.stack and self.stack[-1].dfa.is_final: self._pop()`. -/
def drainStack {α : Type} (g : Grammar) (cb : Callbacks α) (st : PState α) : PState α :=
  match hstk : st.stack with
  | [] => st
  | tos :: rest =>
    if (g.dfa tos.dfa).is_final then
      drainStack g cb (pgenPop g cb st)
    else
      st
termination_by st.stack.length
decreasing_by
  simp only [pgenPop, hstk]
  cases rest <;> simp

/-- `PgenParser.parse`: feed the whole stream, drain reducible frames, then
either return the root or raise "incomplete input" at the last token seen.
When no token was ever seen the `raise` references unbound loop variables,
which is the `unboundLocal` outcome. -/
def parse {α : Type} (g : Grammar) (cb : Callbacks α) (er : RecHook α)
    (tokens : List Token) (st : PState α) : Except PErr (Option α) :=
  match feedTokens g cb er tokens st none with
  | .error e => .error e
  | .ok (st1, last) =>
    let st2 := drainStack g cb st1
    if st2.stack.isEmpty then
      .ok st2.rootnode
    else
      match last with
      | some t => .error (.incompleteInput t.type t.value t.start_pos)
      | none => .error .unboundLocal

/-- The DFA index of the start nonterminal's first state, as computed by the
`PgenParser` constructor
(`grammar._nonterminal_to_dfas[grammar.number2nonterminal[start]][0]`). -/
def startDfaIndex (g : Grammar) (start : Nat) : Nat :=
  (((g.nonterminal_to_dfas.lookup ((g.number2nonterminal.lookup start).getD "")).getD []).headD 0)

/-- The initial parser state built by the constructor: a single frame at the
start nonterminal's first DFA state, no root. -/
def initState {α : Type} (g : Grammar) (start : Nat) : PState α :=
  ⟨[⟨startDfaIndex g start, []⟩], none⟩

/-- The free (initial) tree-node type: its constructors are exactly the two
builder callbacks, so a parse instantiated at `Tree` records every builder
call literally.  A leaf stores the builder's arguments `(type, value, prfx,
start_pos)`. -/
inductive Tree where
  | leaf (type : Nat) (value : String) (prfx : String) (start_pos : Nat × Nat) : Tree
  | node (nonterminal : String) (children : List Tree) : Tree
deriving Repr

mutual

/-- The leaves of a tree, read left to right. -/
def Tree.leaves : Tree → List Tree
  | .leaf t v pr s => [.leaf t v pr s]
  | .node _ cs => leavesList cs

/-- The leaves of a forest, read left to right. -/
def leavesList : List Tree → List Tree
  | [] => []
  | c :: cs => c.leaves ++ leavesList cs

end

/-- The free callbacks: the internal-node builder is `Tree.node` on the
nonterminal name, the leaf builder is `Tree.leaf` on the token fields. -/
def freeCallbacks : Callbacks Tree :=
  ⟨fun _ nt cs => .node nt cs, fun _ t v pr s => .leaf t v pr s⟩

/-- The DFA-index skeleton of a frame stack (the only data the control flow of
`add_token` inspects). -/
def skeleton {α : Type} (stack : List (StackNode α)) : List Nat :=
  stack.map (·.dfa)

/-- Effect of a plan's pushes on a skeleton (top-first, so pushing in order
conses each nested start state). -/
def pushAllSk (pushes : List Nat) (sk : List Nat) : List Nat :=
  pushes.foldl (fun s p => p :: s) sk

/-- One label consumption at the skeleton level: find the topmost state (after
popping final states without a transition) holding a plan for the label, and
apply the plan; `none` when the token is rejected (dead end or empty stack). -/
def stepLabel (g : Grammar) (il : Option Nat) : List Nat → Option (List Nat)
  | [] => none
  | d :: rest =>
    match (g.dfa d).planFor il with
    | some plan => some (pushAllSk plan.dfa_pushes (plan.next_dfa :: rest))
    | none => if (g.dfa d).is_final then stepLabel g il rest else none

/-- Does the lookup loop, started on this skeleton with this label, drain the
whole stack by final-state pops without ever finding a plan?  This is exactly
the condition under which `add_token` raises "too much input". -/
def drainsEmptyOn (g : Grammar) (il : Option Nat) : List Nat → Bool
  | [] => true
  | d :: rest =>
    match (g.dfa d).planFor il with
    | some _ => false
    | none => (g.dfa d).is_final && drainsEmptyOn g il rest

/-- Acceptance of a label sequence from a skeleton: every label must be
consumed by `stepLabel`, and at the end every remaining frame must be final
(so the end-of-stream drain empties the stack). -/
def acceptsFrom (g : Grammar) : List (Option Nat) → List Nat → Bool
  | [], sk => sk.all fun d => (g.dfa d).is_final
  | il :: ils, sk =>
    match stepLabel g il sk with
    | some sk' => acceptsFrom g ils sk'
    | none => false

/-- The language defined by a grammar from a start symbol: the token streams
whose resolved label sequence drives the automaton from the start state to a
configuration that drains to the empty stack. -/
def accepts (g : Grammar) (start : Nat) (tokens : List Token) : Bool :=
  acceptsFrom g (tokens.map fun t => token_to_ilabel g t.type t.value) [startDfaIndex g start]

/-- Leaves accumulated in a frame stack, outermost (bottom) frame first — the
left-to-right leaves of everything matched so far. -/
def frameLeaves : List (StackNode Tree) → List Tree
  | [] => []
  | f :: rest => frameLeaves rest ++ leavesList f.nodes

/-- Errors raised by the Python runtime itself (not `InternalParseError`):
`self[-1]` on an empty list raises `IndexError`; subscripting or unpacking an
object with no `__getitem__`/`__iter__` raises `TypeError`. -/
inductive PyErr where
  | indexError
  | typeError
deriving DecidableEq, Repr

/-- Python subscription `tos[i]` on a `StackNode`.  The class (parse.py,
`StackNode`) defines only `__init__`, the `nonterminal` property and
`__repr__` — no `__getitem__` — so subscription is defined at no index and for
no result: the operation always raises `TypeError`, modelled by an empty
result type. -/
def StackNode.subscript {α : Type} (_tos : StackNode α) (_i : Nat) : Option Empty :=
  none

/-- Python 3-tuple unpacking `dfa, state, nodes = tos` of a `StackNode`.  The
class defines no `__iter__` (nor `__getitem__`), so unpacking always raises
`TypeError`, modelled by an empty result type. -/
def StackNode.unpack3 {α : Type} (_tos : StackNode α) : Option Empty :=
  none

/-- `Stack.get_tos_nodes`: `tos = self[-1]; return tos[2][1]`.  The first
subscription `tos[2]` already fails on a `StackNode`. -/
def Stack.get_tos_nodes {α : Type} (stack : List (StackNode α)) : Except PyErr (List α) :=
  match stack with
  | [] => .error .indexError
  | tos :: _ =>
    match tos.subscript 2 with
    | none => .error .typeError
    | some e => e.elim

/-- `Stack.get_tos_first_tokens`: after building the inverse token/keyword
maps (pure, unobservable), it unpacks `dfa, state, nodes = tos`, which fails
on a `StackNode`. -/
def Stack.get_tos_first_tokens {α : Type} (_g : Grammar)
    (stack : List (StackNode α)) : Except PyErr (List String) :=
  match stack with
  | [] => .error .indexError
  | tos :: _ =>
    match tos.unpack3 with
    | none => .error .typeError
    | some e => e.elim

/-- The result of a reduction, attached as in the tail of `_pop`: appended to
the parent frame's children if a frame remains, otherwise installed as the
parse root. -/
def attachResult {α : Type} (new_node : α) (rest : List (StackNode α)) (root : Option α) :
    PState α :=
  match rest with
  | [] => ⟨[], some new_node⟩
  | p :: rs => ⟨{ p with nodes := p.nodes ++ [new_node] } :: rs, root⟩

/-- The node produced by popping a frame: the promoted single child, or an
internal node built from the frame's nonterminal and children. -/
def popNewNode {α : Type} (g : Grammar) (cb : Callbacks α) (tos : StackNode α) : α :=
  match tos.nodes with
  | [n] => n
  | ns => cb.convert_node g (g.dfa tos.dfa).from_rule ns

/-- A linear example grammar: rule `S` with two states, the start state 0
(non-final) shifting label 5 to the final state 1; token type 7 carries
label 5, token type `NAME` carries label 4, and the reserved word "k" carries
label 9. -/
def gB : Grammar :=
  { keywords := [("k", 9)],
    tokens := [(7, 5), (1, 4)],
    dfas := [⟨"S", false, [(5, ⟨1, []⟩)]⟩, ⟨"S", true, []⟩],
    number2nonterminal := [(0, "S")],
    nonterminal_to_dfas := [("S", [0, 1])] }

/-- An example grammar with a nested push: from the start state of `S`,
label 5 moves to state 1 and enters rule `B` (start state 2); from state 2 of
`B`, label 6 moves to the final state 3. -/
def gP : Grammar :=
  { keywords := [],
    tokens := [(7, 5), (8, 6)],
    dfas := [⟨"S", false, [(5, ⟨1, [2]⟩)]⟩, ⟨"S", true, []⟩,
      ⟨"B", false, [(6, ⟨3, []⟩)]⟩, ⟨"B", true, []⟩],
    number2nonterminal := [(0, "S")],
    nonterminal_to_dfas := [("S", [0, 1]), ("B", [2, 3])] }

/-- An example grammar whose start nonterminal's start state is final and has
no transitions: the empty token stream is accepted. -/
def gF : Grammar :=
  { keywords := [],
    tokens := [],
    dfas := [⟨"S", true, []⟩],
    number2nonterminal := [(0, "S")],
    nonterminal_to_dfas := [("S", [0])] }

/-- A trivial recovery hook that leaves the parser state unchanged, used to
instantiate theorems at concrete inputs. -/
def erId : RecHook Tree := fun _ st _ _ _ _ => st

/-- Callbacks that agree with `freeCallbacks` on the internal-node builder but
use a different leaf builder, used to show the leaf builder is not consulted
on an empty accepted stream. -/
def cbAlt : Callbacks Tree :=
  ⟨fun _ nt cs => .node nt cs, fun _ _ _ _ _ => .node "altleaf" []⟩

theorem pushFrames_eq {α : Type} (pushes : List Nat) (s0 : List (StackNode α)) :
    pushes.foldl (fun s push => StackNode.mk push [] :: s) s0 =
      pushes.reverse.map (fun d => StackNode.mk d []) ++ s0 := by
  induction pushes generalizing s0 with
  | nil => simp
  | cons p ps ih => simp [ih]

theorem pgenPop_cons {α : Type} (g : Grammar) (cb : Callbacks α) (tos : StackNode α)
    (rest : List (StackNode α)) (root : Option α) :
    pgenPop g cb ⟨tos :: rest, root⟩ = attachResult (popNewNode g cb tos) rest root := rfl

theorem leavesList_append (a b : List Tree) :
    leavesList (a ++ b) = leavesList a ++ leavesList b := by
  induction a with
  | nil => simp [leavesList]
  | cons x xs ih => simp [leavesList, ih]

theorem leaves_popNewNode (g : Grammar) (d : Nat) (nodes : List Tree) :
    (popNewNode g freeCallbacks (StackNode.mk d nodes)).leaves = leavesList nodes := by
  match nodes with
  | [] => rfl
  | [n] => simp [popNewNode, leavesList, Tree.leaves]
  | n :: m :: t => rfl

theorem skeleton_appendLeaf {α : Type} (l : α) (s : List (StackNode α)) :
    skeleton (appendLeaf l s) = skeleton s := by
  cases s <;> simp [appendLeaf, skeleton]

theorem skeleton_pushFrames {α : Type} (pushes : List Nat) (s0 : List (StackNode α)) :
    skeleton (pushes.foldl (fun s push => StackNode.mk push [] :: s) s0) =
      pushAllSk pushes (skeleton s0) := by
  induction pushes generalizing s0 with
  | nil => simp [pushAllSk]
  | cons p ps ih => simpa [pushAllSk, skeleton] using ih (StackNode.mk p [] :: s0)

theorem frameLeaves_pushFrames (pushes : List Nat) (s0 : List (StackNode Tree)) :
    frameLeaves (pushes.foldl (fun s push => StackNode.mk push [] :: s) s0) =
      frameLeaves s0 := by
  induction pushes generalizing s0 with
  | nil => rfl
  | cons p ps ih => simpa [frameLeaves, leavesList] using ih (StackNode.mk p [] :: s0)

theorem pushFrames_ne_nil {α : Type} (pushes : List Nat) (x : StackNode α)
    (xs : List (StackNode α)) :
    pushes.foldl (fun s push => StackNode.mk push [] :: s) (x :: xs) ≠ [] := by
  rw [pushFrames_eq]
  simp

theorem appendLeaf_ne_nil {α : Type} (l : α) (s : List (StackNode α)) (h : s ≠ []) :
    appendLeaf l s ≠ [] := by
  cases s with
  | nil => exact absurd rfl h
  | cons f r => simp [appendLeaf]

theorem frameLeaves_appendLeaf (l : Tree) (s : List (StackNode Tree)) (h : s ≠ []) :
    frameLeaves (appendLeaf l s) = frameLeaves s ++ l.leaves := by
  match s with
  | [] => exact absurd rfl h
  | f :: r => simp [appendLeaf, frameLeaves, leavesList_append, leavesList]

theorem addTokenLoop_step (g : Grammar) (er : RecHook Tree) (il : Option Nat)
    (type_ : Nat) (value : String) (start_pos : Nat × Nat) (prfx : String)
    (stack : List (StackNode Tree)) (root : Option Tree) (sk' : List Nat)
    (h : stepLabel g il (skeleton stack) = some sk') :
    ∃ stack1 : List (StackNode Tree),
      addTokenLoop g freeCallbacks er il type_ value start_pos prfx ⟨stack, root⟩ =
        .ok (none, ⟨stack1, root⟩) ∧
      stack1 ≠ [] ∧
      skeleton stack1 = sk' ∧
      frameLeaves stack1 =
        frameLeaves stack ++ [Tree.leaf type_ value prfx start_pos] := by
  match stack with
  | [] => simp [skeleton, stepLabel] at h
  | tos :: rest =>
    rw [show skeleton (tos :: rest) = tos.dfa :: skeleton rest from rfl] at h
    rw [stepLabel] at h
    cases hpl : (g.dfa tos.dfa).planFor il with
    | some plan =>
      rw [hpl] at h
      simp only [Option.some.injEq] at h
      refine ⟨appendLeaf (Tree.leaf type_ value prfx start_pos)
          (plan.dfa_pushes.foldl (fun s push => StackNode.mk push [] :: s)
            ({ tos with dfa := plan.next_dfa } :: rest)), ?_, ?_, ?_, ?_⟩
      · rw [addTokenLoop]
        simp [hpl, freeCallbacks]
      · exact appendLeaf_ne_nil _ _ (pushFrames_ne_nil _ _ _)
      · rw [skeleton_appendLeaf, skeleton_pushFrames, ← h]
        rfl
      · rw [frameLeaves_appendLeaf _ _ (pushFrames_ne_nil _ _ _), frameLeaves_pushFrames]
        simp [frameLeaves, Tree.leaves]
    | none =>
      rw [hpl] at h
      by_cases hf : (g.dfa tos.dfa).is_final
      · rw [if_pos hf] at h
        cases rest with
        | nil => rw [show skeleton ([] : List (StackNode Tree)) = [] from rfl, stepLabel] at h; cases h
        | cons p rs =>
          have h' : stepLabel g il
              (skeleton ({ p with nodes := p.nodes ++ [popNewNode g freeCallbacks tos] } :: rs)) =
                some sk' := by
            rw [show skeleton ({ p with nodes := p.nodes ++ [popNewNode g freeCallbacks tos] } :: rs) =
              skeleton (p :: rs) from rfl]
            exact h
          obtain ⟨stack1, heq, hne1, hsk1, hfl1⟩ :=
            addTokenLoop_step g er il type_ value start_pos prfx
              ({ p with nodes := p.nodes ++ [popNewNode g freeCallbacks tos] } :: rs) root sk' h'
          refine ⟨stack1, ?_, hne1, hsk1, ?_⟩
          · rw [addTokenLoop]
            simp only [hpl, hf, if_true]
            rw [show pgenPop g freeCallbacks ⟨tos :: p :: rs, root⟩ =
              ⟨{ p with nodes := p.nodes ++ [popNewNode g freeCallbacks tos] } :: rs, root⟩ from rfl]
            exact heq
          · rw [hfl1]
            obtain ⟨d, nodes⟩ := tos
            simp [frameLeaves, leavesList_append, leavesList, leaves_popNewNode]
      · rw [if_neg hf] at h
        cases h
termination_by stack.length

theorem drainStack_all_final (g : Grammar) (stack : List (StackNode Tree))
    (hne : stack ≠ [])
    (hfin : (skeleton stack).all (fun d => (g.dfa d).is_final) = true) :
    ∃ t : Tree, drainStack g freeCallbacks ⟨stack, none⟩ = ⟨[], some t⟩ ∧
      t.leaves = frameLeaves stack := by
  match stack with
  | [] => exact absurd rfl hne
  | [tos] =>
    have hf : (g.dfa tos.dfa).is_final = true := by
      simpa [skeleton] using hfin
    refine ⟨popNewNode g freeCallbacks tos, ?_, ?_⟩
    · rw [drainStack]
      simp only [hf, if_true]
      rw [show pgenPop g freeCallbacks ⟨[tos], none⟩ =
        ⟨[], some (popNewNode g freeCallbacks tos)⟩ from rfl]
      rw [drainStack]
    · obtain ⟨d, nodes⟩ := tos
      simp [frameLeaves, leaves_popNewNode]
  | tos :: p :: rs =>
    rw [show skeleton (tos :: p :: rs) = tos.dfa :: skeleton (p :: rs) from rfl] at hfin
    rw [List.all_cons, Bool.and_eq_true] at hfin
    have hf : (g.dfa tos.dfa).is_final = true := hfin.1
    have hfin' : (skeleton ({ p with nodes := p.nodes ++ [popNewNode g freeCallbacks tos] } :: rs)).all
        (fun d => (g.dfa d).is_final) = true := by
      rw [show skeleton ({ p with nodes := p.nodes ++ [popNewNode g freeCallbacks tos] } :: rs) =
        skeleton (p :: rs) from rfl]
      exact hfin.2
    obtain ⟨t, hdr, hlv⟩ := drainStack_all_final g
      ({ p with nodes := p.nodes ++ [popNewNode g freeCallbacks tos] } :: rs) (by simp) hfin'
    refine ⟨t, ?_, ?_⟩
    · rw [drainStack]
      simp only [hf, if_true]
      rw [show pgenPop g freeCallbacks ⟨tos :: p :: rs, none⟩ =
        ⟨{ p with nodes := p.nodes ++ [popNewNode g freeCallbacks tos] } :: rs, none⟩ from rfl]
      exact hdr
    · rw [hlv]
      obtain ⟨d, nodes⟩ := tos
      simp [frameLeaves, leavesList_append, leavesList, leaves_popNewNode]
termination_by stack.length

theorem feedTokens_accepted (g : Grammar) (er : RecHook Tree) (tokens : List Token)
    (stack : List (StackNode Tree)) (root : Option Tree) (last : Option Token)
    (hacc : acceptsFrom g (tokens.map fun t => token_to_ilabel g t.type t.value)
      (skeleton stack) = true)
    (hne : stack ≠ []) :
    ∃ (stack1 : List (StackNode Tree)) (last1 : Option Token),
      feedTokens g freeCallbacks er tokens ⟨stack, root⟩ last = .ok (⟨stack1, root⟩, last1) ∧
      stack1 ≠ [] ∧
      (skeleton stack1).all (fun d => (g.dfa d).is_final) = true ∧
      frameLeaves stack1 = frameLeaves stack ++
        tokens.map (fun t => Tree.leaf t.type t.value t.prfx t.start_pos) := by
  induction tokens generalizing stack root last with
  | nil =>
    refine ⟨stack, last, rfl, hne, ?_, by simp⟩
    simpa [acceptsFrom] using hacc
  | cons t ts ih =>
    rw [List.map_cons, acceptsFrom] at hacc
    cases hstep : stepLabel g (token_to_ilabel g t.type t.value) (skeleton stack) with
    | none => rw [hstep] at hacc; cases hacc
    | some sk' =>
      rw [hstep] at hacc
      obtain ⟨stack', heq, hne', hsk', hfl'⟩ :=
        addTokenLoop_step g er (token_to_ilabel g t.type t.value)
          t.type t.value t.start_pos t.prfx stack root sk' hstep
      obtain ⟨stack1, last1, hfeed, hne1, hfin1, hfl1⟩ :=
        ih stack' root (some t) (by rw [hsk']; exact hacc) hne'
      refine ⟨stack1, last1, ?_, hne1, hfin1, ?_⟩
      · rw [feedTokens]
        rw [show addToken g freeCallbacks er t.type t.value t.start_pos t.prfx ⟨stack, root⟩ =
          addTokenLoop g freeCallbacks er (token_to_ilabel g t.type t.value)
            t.type t.value t.start_pos t.prfx ⟨stack, root⟩ from rfl]
        rw [heq]
        exact hfeed
      · rw [hfl1, hfl']
        simp

/-- C1. Token preservation: for every token stream in the language the grammar
defines (`accepts`), `parse` succeeds with no recovery and returns a tree
whose leaves, read left to right, are exactly the leaf builder applied to the
input tokens in input order. -/
theorem parse_token_preservation (g : Grammar) (start : Nat) (er : RecHook Tree)
    (tokens : List Token) (hacc : accepts g start tokens = true) :
    ∃ t : Tree,
      parse g freeCallbacks er tokens (initState g start) = .ok (some t) ∧
      t.leaves = tokens.map fun tok => Tree.leaf tok.type tok.value tok.prfx tok.start_pos := by
  obtain ⟨stack1, last1, hfeed, hne1, hfin1, hfl1⟩ :=
    feedTokens_accepted g er tokens [⟨startDfaIndex g start, []⟩] none none
      (by rw [show skeleton ([⟨startDfaIndex g start, []⟩] : List (StackNode Tree)) =
        [startDfaIndex g start] from rfl]; exact hacc)
      (by simp)
  obtain ⟨t, hdrain, hleaves⟩ := drainStack_all_final g stack1 hne1 hfin1
  refine ⟨t, ?_, ?_⟩
  · rw [show initState g start = (⟨[⟨startDfaIndex g start, []⟩], none⟩ : PState Tree) from rfl,
      parse, hfeed]
    simp [hdrain]
  · rw [hleaves, hfl1]
    simp [frameLeaves, leavesList]

/-- C6. When `add_token` finds a plan for the resolved label, it rebinds the
top frame's DFA to the plan's successor state, pushes one fresh frame with an
empty children list per nested start state in the plan's pushes in order (the
stack being top-first, the last push ends up innermost), and appends the leaf
built by the leaf builder from the token to the frame that is topmost after
the pushes; the returned value is `none` (Python `None`). -/
theorem addToken_shift {α : Type} (g : Grammar) (cb : Callbacks α) (er : RecHook α)
    (type_ : Nat) (value : String) (start_pos : Nat × Nat) (prfx : String)
    (tos : StackNode α) (rest : List (StackNode α)) (root : Option α) (plan : Plan)
    (hplan : (g.dfa tos.dfa).planFor (token_to_ilabel g type_ value) = some plan) :
    addToken g cb er type_ value start_pos prfx ⟨tos :: rest, root⟩ =
      .ok (none, ⟨appendLeaf (cb.convert_leaf g type_ value prfx start_pos)
          (plan.dfa_pushes.reverse.map (fun d => StackNode.mk d []) ++
            { tos with dfa := plan.next_dfa } :: rest), root⟩) := by
  rw [addToken, addTokenLoop]
  simp [hplan, pushFrames_eq]

/-- C7. At a dead end (no plan for the resolved label on the top frame): if
the top frame's state is final, `add_token` pops it by reduction and retries
the lookup against the new top frame; if it is not final, `add_token` returns
`none` with the state being exactly the recovery hook's output on the grammar,
the live state (stack as popped so far), and the token's type, value, position
and trivia — no leaf appended, no state rebound, no fatal condition raised. -/
theorem addToken_deadEnd {α : Type} (g : Grammar) (cb : Callbacks α) (er : RecHook α)
    (type_ : Nat) (value : String) (start_pos : Nat × Nat) (prfx : String)
    (tos : StackNode α) (rest : List (StackNode α)) (root : Option α)
    (hplan : (g.dfa tos.dfa).planFor (token_to_ilabel g type_ value) = none) :
    ((g.dfa tos.dfa).is_final = true →
      addToken g cb er type_ value start_pos prfx ⟨tos :: rest, root⟩ =
        addTokenLoop g cb er (token_to_ilabel g type_ value) type_ value start_pos prfx
          (pgenPop g cb ⟨tos :: rest, root⟩)) ∧
    ((g.dfa tos.dfa).is_final = false →
      addToken g cb er type_ value start_pos prfx ⟨tos :: rest, root⟩ =
        .ok (none, er g ⟨tos :: rest, root⟩ type_ value start_pos prfx)) := by
  constructor <;> intro hf <;> rw [addToken, addTokenLoop] <;> simp [hplan, hf]

theorem addTokenLoop_error_iff {α : Type} (g : Grammar) (cb : Callbacks α) (er : RecHook α)
    (il : Option Nat) (type_ : Nat) (value : String) (start_pos : Nat × Nat) (prfx : String)
    (stack : List (StackNode α)) (root : Option α) (e : PErr) :
    addTokenLoop g cb er il type_ value start_pos prfx ⟨stack, root⟩ = .error e ↔
      (e = .tooMuchInput type_ value start_pos ∧
        drainsEmptyOn g il (skeleton stack) = true) := by
  match stack with
  | [] =>
    rw [addTokenLoop]
    simp [skeleton, drainsEmptyOn]
    exact eq_comm
  | tos :: rest =>
    rw [addTokenLoop]
    cases hpl : (g.dfa tos.dfa).planFor il with
    | some plan => simp [hpl, skeleton, drainsEmptyOn]
    | none =>
      by_cases hf : (g.dfa tos.dfa).is_final
      · simp only [hpl, hf, if_true]
        match rest with
        | [] =>
          rw [show pgenPop g cb ⟨[tos], root⟩ =
                ⟨[], some (popNewNode g cb tos)⟩ from rfl]
          rw [addTokenLoop_error_iff g cb er il type_ value start_pos prfx [] _ e]
          simp [skeleton, drainsEmptyOn, hpl, hf]
        | p :: rs =>
          rw [show pgenPop g cb ⟨tos :: p :: rs, root⟩ =
                ⟨{ p with nodes := p.nodes ++ [popNewNode g cb tos] } :: rs, root⟩ from rfl]
          rw [addTokenLoop_error_iff g cb er il type_ value start_pos prfx _ root e]
          simp [skeleton, drainsEmptyOn, hpl, hf]
      · simp [hpl, hf, skeleton, drainsEmptyOn]
termination_by stack.length

/-- C4. The "too much input" fatal condition: `add_token` raises an error if
and only if that error is `tooMuchInput` carrying the token's type, value and
start position, and the lookup loop drains the whole stack by final-state pops
without finding a plan, so that a transition lookup is attempted with no frame
left on the stack. -/
theorem addToken_tooMuchInput_iff {α : Type} (g : Grammar) (cb : Callbacks α)
    (er : RecHook α) (type_ : Nat) (value : String) (start_pos : Nat × Nat) (prfx : String)
    (stack : List (StackNode α)) (root : Option α) (e : PErr) :
    addToken g cb er type_ value start_pos prfx ⟨stack, root⟩ = .error e ↔
      (e = .tooMuchInput type_ value start_pos ∧
        drainsEmptyOn g (token_to_ilabel g type_ value) (skeleton stack) = true) :=
  addTokenLoop_error_iff g cb er (token_to_ilabel g type_ value)
    type_ value start_pos prfx stack root e

/-- C5. Reduction and single-child promotion: popping a frame with exactly one
child promotes that child as the result without calling the internal-node
builder; any other child count builds an internal node from the frame's
nonterminal and ordered children; the result is attached to the parent frame's
children, or installed as the root when the stack empties (`attachResult`). -/
theorem pop_promotion {α : Type} (g : Grammar) (cb : Callbacks α)
    (tos : StackNode α) (rest : List (StackNode α)) (root : Option α) :
    (∀ c : α, tos.nodes = [c] → pgenPop g cb ⟨tos :: rest, root⟩ = attachResult c rest root) ∧
    (tos.nodes.length ≠ 1 →
      pgenPop g cb ⟨tos :: rest, root⟩ =
        attachResult (cb.convert_node g (g.dfa tos.dfa).from_rule tos.nodes) rest root) := by
  constructor
  · intro c hc
    cases rest <;> simp [pgenPop, hc, attachResult]
  · intro hlen
    match hns : tos.nodes with
    | [] => cases rest <;> simp [pgenPop, hns, attachResult]
    | [n] => rw [hns] at hlen; simp at hlen
    | n :: m :: t => cases rest <;> simp [pgenPop, hns, attachResult]

/-- C8. Label resolution: a `NAME` token whose value is a registered reserved
word resolves to the reserved word's label (and, when the generic-identifier
label differs, never to it); a token whose type has no registered label (and
which is not a reserved-word identifier) resolves to `none` rather than
raising. -/
theorem token_to_ilabel_spec (g : Grammar) (type_ : Nat) (value : String) :
    (∀ l, g.keywords.lookup value = some l → token_to_ilabel g NAME value = some l) ∧
    (∀ l lname, g.keywords.lookup value = some l → g.tokens.lookup NAME = some lname →
      l ≠ lname → token_to_ilabel g NAME value ≠ some lname) ∧
    ((type_ = NAME → g.keywords.lookup value = none) → g.tokens.lookup type_ = none →
      token_to_ilabel g type_ value = none) := by
  refine ⟨fun l hl => ?_, fun l lname hl _ hne => ?_, fun hkw htok => ?_⟩
  · simp [token_to_ilabel, hl]
  · simp [token_to_ilabel, hl]
    exact hne
  · by_cases h : type_ = NAME
    · subst h
      simp [token_to_ilabel, hkw rfl, htok]
    · simp [token_to_ilabel, h, htok]

/-- C10. The introspection helpers on a non-empty stack of `StackNode` frames
both fail with `TypeError` (a `StackNode` is neither subscriptable as
`tos[2][1]` nor unpackable into three components), so neither ever returns a
value. -/
theorem stack_introspection_fails {α : Type} (g : Grammar)
    (stack : List (StackNode α)) (h : stack ≠ []) :
    Stack.get_tos_nodes stack = .error .typeError ∧
    Stack.get_tos_first_tokens g stack = .error .typeError := by
  match stack, h with
  | tos :: rest, _ => exact ⟨rfl, rfl⟩

end Parso

namespace Parso

theorem feedTokens_error_tooMuch {α : Type} (g : Grammar) (cb : Callbacks α) (er : RecHook α)
    (tokens : List Token) :
    ∀ (st : PState α) (last : Option Token) (e : PErr),
      feedTokens g cb er tokens st last = .error e →
      ∃ (ty : Nat) (v : String) (p : Nat × Nat), e = .tooMuchInput ty v p := by
  induction tokens with
  | nil => intro st last e h; cases h
  | cons t ts ih =>
    intro st last e h
    rw [feedTokens] at h
    cases hadd : addToken g cb er t.type t.value t.start_pos t.prfx st with
    | error e2 =>
      rw [hadd] at h
      obtain ⟨stack, root⟩ := st
      rw [addToken] at hadd
      rw [addTokenLoop_error_iff] at hadd
      cases h
      exact ⟨t.type, t.value, t.start_pos, hadd.1⟩
    | ok pair =>
      rw [hadd] at h
      exact ih _ _ _ h

/-- C3 (amended). The "incomplete input" fatal condition: `parse` raises it,
carrying a token's type, value and start position, if and only if the stream
was fed to the end, the stack after the end-of-stream drain is still
non-empty, and a last token was seen, whose fields are the ones carried.  For
an empty token stream with a non-empty residual stack the source instead
trips over the unbound loop variables (an `UnboundLocalError`, not the
incomplete-input condition). -/
theorem parse_incomplete_iff {α : Type} (g : Grammar) (cb : Callbacks α) (er : RecHook α)
    (tokens : List Token) (st : PState α) (ty : Nat) (v : String) (p : Nat × Nat) :
    (parse g cb er tokens st = .error (.incompleteInput ty v p) ↔
      ∃ (st1 : PState α) (tok : Token),
        feedTokens g cb er tokens st none = .ok (st1, some tok) ∧
        (drainStack g cb st1).stack ≠ [] ∧
        ty = tok.type ∧ v = tok.value ∧ p = tok.start_pos) ∧
    ((drainStack g cb st).stack ≠ [] →
      parse g cb er [] st = .error .unboundLocal) := by
  constructor
  · constructor
    · intro h
      rw [parse] at h
      cases hfeed : feedTokens g cb er tokens st none with
      | error e =>
        rw [hfeed] at h
        obtain ⟨ty2, v2, p2, he⟩ := feedTokens_error_tooMuch g cb er tokens st none e hfeed
        rw [he] at h
        cases h
      | ok pair =>
        obtain ⟨st1, last⟩ := pair
        rw [hfeed] at h
        simp only at h
        by_cases hemp : (drainStack g cb st1).stack.isEmpty
        · rw [if_pos hemp] at h
          cases h
        · rw [if_neg hemp] at h
          cases last with
          | none => cases h
          | some tok =>
            simp only [Except.error.injEq, PErr.incompleteInput.injEq] at h
            refine ⟨st1, tok, rfl, by simpa using hemp, ?_, ?_, ?_⟩
            · exact h.1.symm
            · exact h.2.1.symm
            · exact h.2.2.symm
    · rintro ⟨st1, tok, hfeed, hdr, h1, h2, h3⟩
      rw [parse, hfeed]
      simp only
      rw [if_neg (by simpa using hdr)]
      rw [h1, h2, h3]
  · intro hdr
    rw [parse]
    rw [show feedTokens g cb er [] st none = .ok (st, none) from rfl]
    simp only
    rw [if_neg (by simpa using hdr)]

/-- C3 counterexample: on the empty token stream with the non-final start
state of `gB`, the stack is non-empty after draining, yet `parse` does not
raise the incomplete-input condition — it fails with the unbound-local error,
refuting the claimed "if and only if" as stated. -/
theorem parse_empty_stream_not_incomplete :
    (drainStack gB freeCallbacks (⟨[⟨0, []⟩], none⟩ : PState Tree)).stack ≠ [] ∧
    parse gB freeCallbacks erId [] ⟨[⟨0, []⟩], none⟩ = .error .unboundLocal ∧
    ∀ (ty : Nat) (v : String) (p : Nat × Nat),
      parse gB freeCallbacks erId [] ⟨[⟨0, []⟩], none⟩ ≠ .error (.incompleteInput ty v p) := by
  have h1 : (drainStack gB freeCallbacks (⟨[⟨0, []⟩], none⟩ : PState Tree)).stack ≠ [] := by
    rw [drainStack]
    simp [Grammar.dfa, gB]
  have h2 : parse gB freeCallbacks erId [] (⟨[⟨0, []⟩], none⟩ : PState Tree) =
      .error .unboundLocal := by
    rw [parse]
    rw [show feedTokens gB freeCallbacks erId [] ⟨[⟨0, []⟩], none⟩ none =
      .ok (⟨[⟨0, []⟩], none⟩, none) from rfl]
    simp only
    rw [if_neg (by simpa using h1)]
  refine ⟨h1, h2, fun ty v p => ?_⟩
  rw [h2]
  simp

/-- C2 (code bug): `add_token` consumes the token that structurally completes
the parse of `gB` (the drain afterwards empties the stack), yet its returned
value is `none` — Python `None` — and not the truthy completion signal its own
docstring ("return True if this is the end of the program") and the class
docstring promise; a caller looping until `add_token` returns true never
terminates. -/
theorem addToken_returns_no_completion_signal :
    addToken gB freeCallbacks erId 7 "x" (1, 0) "" ⟨[⟨0, []⟩], none⟩ =
      .ok (none, ⟨[⟨1, [Tree.leaf 7 "x" "" (1, 0)]⟩], none⟩) ∧
    (drainStack gB freeCallbacks ⟨[⟨1, [Tree.leaf 7 "x" "" (1, 0)]⟩], none⟩).stack = [] := by
  constructor
  · rw [addToken, addTokenLoop]
    simp [token_to_ilabel, Grammar.dfa, DFA.planFor, gB, NAME, appendLeaf, freeCallbacks]
  · obtain ⟨t, hdr, hlv⟩ := drainStack_all_final gB [⟨1, [Tree.leaf 7 "x" "" (1, 0)]⟩]
      (by simp) (by decide)
    rw [hdr]

/-- C9. On an empty token stream, when the start nonterminal's start state is
final, `parse` raises nothing and returns a root built by the internal-node
builder from the start nonterminal and an empty children list; the result does
not depend on the leaf builder (nor on the recovery hook), i.e. the leaf
builder is never called. -/
theorem parse_empty_stream_final_start {α : Type} (g : Grammar) (cb cbx : Callbacks α)
    (er erx : RecHook α) (start : Nat)
    (hfin : (g.dfa (startDfaIndex g start)).is_final = true) :
    parse g cb er [] (initState g start) =
      .ok (some (cb.convert_node g (g.dfa (startDfaIndex g start)).from_rule [])) ∧
    (cbx.convert_node = cb.convert_node →
      parse g cbx erx [] (initState g start) = parse g cb er [] (initState g start)) := by
  have key : ∀ (cb2 : Callbacks α) (er2 : RecHook α),
      parse g cb2 er2 [] (initState g start) =
        .ok (some (cb2.convert_node g (g.dfa (startDfaIndex g start)).from_rule [])) := by
    intro cb2 er2
    rw [show initState g start = (⟨[⟨startDfaIndex g start, []⟩], none⟩ : PState α) from rfl,
      parse]
    rw [show feedTokens g cb2 er2 [] ⟨[⟨startDfaIndex g start, []⟩], none⟩ none =
      .ok (⟨[⟨startDfaIndex g start, []⟩], none⟩, none) from rfl]
    simp only
    rw [drainStack]
    simp only [hfin, if_true]
    rw [show pgenPop g cb2 ⟨[⟨startDfaIndex g start, []⟩], none⟩ =
      ⟨[], some (cb2.convert_node g (g.dfa (startDfaIndex g start)).from_rule [])⟩ from rfl]
    rw [drainStack]
    rfl
  refine ⟨key cb er, fun hcb => ?_⟩
  rw [key cbx erx, key cb er, hcb]


/-- Witness for C1 at a concrete accepted stream of `gB`. -/
theorem parse_token_preservation_witness :
    accepts gB 0 [Token.mk 7 "x" (1, 0) ""] = true ∧
    ∃ t : Tree,
      parse gB freeCallbacks erId [Token.mk 7 "x" (1, 0) ""] (initState gB 0) = .ok (some t) ∧
      t.leaves = [Token.mk 7 "x" (1, 0) ""].map
        (fun tok => Tree.leaf tok.type tok.value tok.prfx tok.start_pos) :=
  ⟨by decide, parse_token_preservation gB 0 erId [Token.mk 7 "x" (1, 0) ""] (by decide)⟩

/-- Witness for C3 (amended), exercising the empty-stream conjunct on `gB`. -/
theorem parse_incomplete_iff_witness :
    (drainStack gB freeCallbacks (⟨[StackNode.mk 0 []], none⟩ : PState Tree)).stack ≠ [] ∧
    parse gB freeCallbacks erId [] ⟨[StackNode.mk 0 []], none⟩ = .error .unboundLocal := by
  have hne : (drainStack gB freeCallbacks
      (⟨[StackNode.mk 0 []], none⟩ : PState Tree)).stack ≠ [] := by
    rw [drainStack]
    simp [Grammar.dfa, gB]
  exact ⟨hne,
    (parse_incomplete_iff gB freeCallbacks erId [] ⟨[StackNode.mk 0 []], none⟩ 0 "" (0, 0)).2 hne⟩

/-- Witness for C5: a single accumulated child is promoted unchanged. -/
theorem pop_promotion_witness :
    (StackNode.mk 0 [Tree.node "X" []] : StackNode Tree).nodes = [Tree.node "X" []] ∧
    pgenPop gB freeCallbacks ⟨[StackNode.mk 0 [Tree.node "X" []]], none⟩ =
      attachResult (Tree.node "X" []) [] none :=
  ⟨rfl, (pop_promotion gB freeCallbacks (StackNode.mk 0 [Tree.node "X" []]) [] none).1
    (Tree.node "X" []) rfl⟩

/-- Witness for C6 on `gP`: the transition on label 5 rebinds the top frame to
state 1, pushes a fresh frame for rule `B` (state 2), and the leaf lands in
the pushed innermost frame. -/
theorem addToken_shift_witness :
    (gP.dfa (StackNode.mk 0 ([] : List Tree)).dfa).planFor (token_to_ilabel gP 7 "x") =
      some (Plan.mk 1 [2]) ∧
    addToken gP freeCallbacks erId 7 "x" (1, 0) "" ⟨[StackNode.mk 0 []], none⟩ =
      .ok (none, ⟨[StackNode.mk 2 [Tree.leaf 7 "x" "" (1, 0)], StackNode.mk 1 []], none⟩) :=
  ⟨by decide, addToken_shift gP freeCallbacks erId 7 "x" (1, 0) "" (StackNode.mk 0 []) [] none
    (Plan.mk 1 [2]) (by decide)⟩

/-- Witness for C7 at the final, transition-free state 1 of `gB`. -/
theorem addToken_deadEnd_witness :
    (gB.dfa (StackNode.mk 1 ([] : List Tree)).dfa).planFor (token_to_ilabel gB 7 "x") = none ∧
    (((gB.dfa (StackNode.mk 1 ([] : List Tree)).dfa).is_final = true →
      addToken gB freeCallbacks erId 7 "x" (1, 0) "" ⟨[StackNode.mk 1 []], none⟩ =
        addTokenLoop gB freeCallbacks erId (token_to_ilabel gB 7 "x") 7 "x" (1, 0) ""
          (pgenPop gB freeCallbacks ⟨[StackNode.mk 1 []], none⟩)) ∧
    ((gB.dfa (StackNode.mk 1 ([] : List Tree)).dfa).is_final = false →
      addToken gB freeCallbacks erId 7 "x" (1, 0) "" ⟨[StackNode.mk 1 []], none⟩ =
        .ok (none, erId gB ⟨[StackNode.mk 1 []], none⟩ 7 "x" (1, 0) ""))) :=
  ⟨by decide, addToken_deadEnd gB freeCallbacks erId 7 "x" (1, 0) "" (StackNode.mk 1 []) [] none
    (by decide)⟩

/-- Witness for C8: the reserved word "k" of `gB` resolves to its keyword
label 9 even though its token type is the generic-identifier type. -/
theorem token_to_ilabel_spec_witness :
    gB.keywords.lookup "k" = some 9 ∧ token_to_ilabel gB NAME "k" = some 9 :=
  ⟨by decide, (token_to_ilabel_spec gB NAME "k").1 9 (by decide)⟩

/-- Witness for C9 on `gF`, including leaf-builder independence via `cbAlt`. -/
theorem parse_empty_stream_final_start_witness :
    (gF.dfa (startDfaIndex gF 0)).is_final = true ∧
    (parse gF freeCallbacks erId [] (initState gF 0) =
        .ok (some (freeCallbacks.convert_node gF (gF.dfa (startDfaIndex gF 0)).from_rule [])) ∧
      (cbAlt.convert_node = freeCallbacks.convert_node →
        parse gF cbAlt erId [] (initState gF 0) = parse gF freeCallbacks erId [] (initState gF 0))) :=
  ⟨by decide, parse_empty_stream_final_start gF freeCallbacks cbAlt erId erId 0 (by decide)⟩

/-- Witness for C10 on a one-frame stack. -/
theorem stack_introspection_fails_witness :
    ([StackNode.mk 0 ([] : List Tree)] : List (StackNode Tree)) ≠ [] ∧
    (Stack.get_tos_nodes [StackNode.mk 0 ([] : List Tree)] = .error .typeError ∧
      Stack.get_tos_first_tokens gB [StackNode.mk 0 ([] : List Tree)] = .error .typeError) :=
  ⟨by simp, stack_introspection_fails gB [StackNode.mk 0 []] (by simp)⟩

end Parso

